import Mathlib

/-!
Shallow embedding of the generic dynamic array of `src/include/array.h`
(macros `array_struct`, `array_init`, `array_add`, `array_add_index`,
`array_set`, `array_get`, `array_remove`, `array_remove_index`,
`array_size`, `array_error`).

Modelling choices:
* the C struct becomes `ArrayC α`; `uint64_t` fields become `Nat`
  (the quantities involved never approach `2^64` in any claim);
* the heap buffer `T* buf` becomes a `List α` whose length is the
  allocated slot count; the null pointer returned by a failed `calloc`
  is modelled as the empty list;
* `calloc` zero-initialisation and the indeterminate slots produced by a
  growing `realloc` are modelled with the `Inhabited` default element
  (those slots are never read by the operations on in-contract states);
* every (re)allocation site takes an explicit `allocOk : Bool` telling
  whether the allocation succeeds, so failure paths are first-class;
* `realloc` to a larger size preserves the old contents (`growBuf`),
  `realloc` to a smaller size keeps the prefix (`List.take`).
-/

/-- The `array_error` enum of the source. -/
inductive array_error where
  | OK_ERROR
  | OUT_OF_MEM
  | OUT_OF_BOUNDS
deriving DecidableEq

/-- The `array_struct(T)` struct of the source. -/
structure ArrayC (α : Type) where
  buf : List α
  capacity : Nat
  size : Nat
  min_capacity : Nat
  error : array_error
deriving DecidableEq

/-- A growing `realloc`: the old contents are preserved, the new slots are
indeterminate (modelled by the default element). -/
def growBuf {α : Type} [Inhabited α] (buf : List α) (newCap : Nat) : List α :=
  buf ++ List.replicate (newCap - buf.length) default

/-- The `array_init` macro.  `s` is the (possibly uninitialised) struct the
macro is applied to; on `calloc` failure only `buf` (set to null, modelled
as `[]`) and `error` are written, all other fields keep their old values. -/
def array_init {α : Type} [Inhabited α] (init_capacity : Nat) (allocOk : Bool)
    (s : ArrayC α) : ArrayC α :=
  if allocOk then
    { buf := List.replicate init_capacity default
      size := 0
      min_capacity := init_capacity
      capacity := init_capacity
      error := .OK_ERROR }
  else
    { s with buf := [], error := .OUT_OF_MEM }

/-- The `array_add` macro (append at the tail).  Note the source doubles
`capacity` before calling `realloc` and does not restore it on failure. -/
def array_add {α : Type} [Inhabited α] (allocOk : Bool) (s : ArrayC α)
    (val : α) : ArrayC α :=
  if s.error = .OK_ERROR then
    if s.size = s.capacity then
      if allocOk then
        let buf2 := growBuf s.buf (s.capacity * 2)
        { s with
          capacity := s.capacity * 2
          buf := buf2.set s.size val
          size := s.size + 1 }
      else
        { s with capacity := s.capacity * 2, error := .OUT_OF_MEM }
    else
      { s with buf := s.buf.set s.size val, size := s.size + 1 }
  else s

/-- One pass of the descending shift loop of `array_add_index`, with the
remaining iteration count made explicit (`fuel` iterations left, current
loop counter `i`): each iteration does `buf[i] = buf[i-1]` and decrements. -/
def shiftRightLoop {α : Type} [Inhabited α] :
    Nat → Nat → List α → List α
  | 0, _, buf => buf
  | fuel + 1, i, buf =>
    shiftRightLoop fuel (i - 1) (buf.set i (buf.getD (i - 1) default))

/-- The descending shift loop of `array_add_index`:
`for(i = hi; index < i; --i) buf[i] = buf[i-1];` — it runs exactly
`hi - index` times. -/
def shiftRight {α : Type} [Inhabited α] (index : Nat) (hi : Nat)
    (buf : List α) : List α :=
  shiftRightLoop (hi - index) hi buf

/-- The part of `array_add_index` after the growth step: bounds check,
increment of `size`, right shift, write at `index`. -/
def insertNoGrow {α : Type} [Inhabited α] (s : ArrayC α) (index : Nat)
    (val : α) : ArrayC α :=
  if index ≤ s.size then
    { s with
      size := s.size + 1
      buf := (shiftRight index s.size s.buf).set index val }
  else
    { s with error := .OUT_OF_BOUNDS }

/-- The `array_add_index` macro (insert at `index`).  The growth step runs
before the bounds check, exactly as in the source. -/
def array_add_index {α : Type} [Inhabited α] (allocOk : Bool) (s : ArrayC α)
    (index : Nat) (val : α) : ArrayC α :=
  if s.error = .OK_ERROR then
    if s.size = s.capacity then
      if allocOk then
        insertNoGrow
          { s with capacity := s.capacity * 2
                   buf := growBuf s.buf (s.capacity * 2) }
          index val
      else
        { s with capacity := s.capacity * 2, error := .OUT_OF_MEM }
    else
      insertNoGrow s index val
  else s

/-- The `array_set` macro (overwrite in place). -/
def array_set {α : Type} (s : ArrayC α) (index : Nat) (val : α) : ArrayC α :=
  if s.error = .OK_ERROR then
    if index < s.size then
      { s with buf := s.buf.set index val }
    else
      { s with error := .OUT_OF_BOUNDS }
  else s

/-- The `array_get` macro.  `ret_val` is the variable the macro writes the
result into; it is returned unchanged whenever the macro does not write it. -/
def array_get {α : Type} [Inhabited α] (s : ArrayC α) (index : Nat)
    (ret_val : α) : ArrayC α × α :=
  if s.error = .OK_ERROR then
    if index < s.size then
      (s, s.buf.getD index default)
    else
      ({ s with error := .OUT_OF_BOUNDS }, ret_val)
  else (s, ret_val)

/-- The `array_remove` macro (remove at the tail).  The decrement of `size`
happens while evaluating the shrink condition, so it is never rolled back;
the source also halves `capacity` before the shrinking `realloc` and does
not restore it on failure. -/
def array_remove {α : Type} (allocOk : Bool) (s : ArrayC α) : ArrayC α :=
  if s.error = .OK_ERROR then
    if s.size > 0 then
      if s.size - 1 = s.capacity / 2 ∧ s.capacity ≠ s.min_capacity then
        if allocOk then
          { s with
            size := s.size - 1
            capacity := s.capacity / 2
            buf := s.buf.take (s.capacity / 2) }
        else
          { s with
            size := s.size - 1
            capacity := s.capacity / 2
            error := .OUT_OF_MEM }
      else
        { s with size := s.size - 1 }
    else
      { s with error := .OUT_OF_BOUNDS }
  else s

/-- One pass of the ascending shift loop of `array_remove_index`, with the
remaining iteration count made explicit: each iteration does
`buf[i] = buf[i+1]` and increments. -/
def shiftLeftLoop {α : Type} [Inhabited α] :
    Nat → Nat → List α → List α
  | 0, _, buf => buf
  | fuel + 1, i, buf =>
    shiftLeftLoop fuel (i + 1) (buf.set i (buf.getD (i + 1) default))

/-- The ascending shift loop of `array_remove_index`:
`for(i = index; i < stop; ++i) buf[i] = buf[i+1];` — it runs exactly
`stop - index` times. -/
def shiftLeft {α : Type} [Inhabited α] (stop : Nat) (index : Nat)
    (buf : List α) : List α :=
  shiftLeftLoop (stop - index) index buf

/-- The `array_remove_index` macro (remove at `index`, shifting left, then
the same shrink step as `array_remove`). -/
def array_remove_index {α : Type} [Inhabited α] (allocOk : Bool)
    (s : ArrayC α) (index : Nat) : ArrayC α :=
  if s.error = .OK_ERROR then
    if s.size > 0 ∧ index < s.size then
      let buf2 := shiftLeft (s.size - 1) index s.buf
      if s.size - 1 = s.capacity / 2 ∧ s.capacity ≠ s.min_capacity then
        if allocOk then
          { s with
            buf := buf2.take (s.capacity / 2)
            size := s.size - 1
            capacity := s.capacity / 2 }
        else
          { s with
            buf := buf2
            size := s.size - 1
            capacity := s.capacity / 2
            error := .OUT_OF_MEM }
      else
        { s with buf := buf2, size := s.size - 1 }
    else
      { s with error := .OUT_OF_BOUNDS }
  else s

/-- The `array_size` accessor macro. -/
def array_size {α : Type} (s : ArrayC α) : Nat := s.size

/-- The `array_error` accessor macro (renamed: the name `array_error` is
taken by the enum, as in the source where one is a type, one a macro). -/
def array_error_state {α : Type} (s : ArrayC α) : array_error := s.error

/-- An operation performed after initialization; the setting of the
reachable-state claims runs each with every (re)allocation succeeding. -/
inductive ArrOp (α : Type) where
  | add (v : α)
  | addIndex (index : Nat) (v : α)
  | set (index : Nat) (v : α)
  | get (index : Nat)
  | removeLast
  | removeIndex (index : Nat)

/-- Apply one operation, every (re)allocation succeeding. -/
def applyOp {α : Type} [Inhabited α] (s : ArrayC α) : ArrOp α → ArrayC α
  | .add v => array_add true s v
  | .addIndex i v => array_add_index true s i v
  | .set i v => array_set s i v
  | .get i => (array_get s i default).1
  | .removeLast => array_remove true s
  | .removeIndex i => array_remove_index true s i

/-- Run a sequence of operations left to right. -/
def runOps {α : Type} [Inhabited α] (s : ArrayC α) (ops : List (ArrOp α)) :
    ArrayC α :=
  ops.foldl applyOp s

/-- The capacity invariant: the floor is positive, `size` and
`min_capacity` are bounded by `capacity`, and `capacity` is
`min_capacity * 2 ^ k` for some `k`. -/
def CapInv {α : Type} (s : ArrayC α) : Prop :=
  1 ≤ s.min_capacity ∧ s.size ≤ s.capacity ∧ s.min_capacity ≤ s.capacity ∧
  ∃ k, s.capacity = s.min_capacity * 2 ^ k

/-- Append a whole list of values at the tail, every reallocation
succeeding. -/
def appendAll {α : Type} [Inhabited α] (s : ArrayC α) (vs : List α) :
    ArrayC α :=
  vs.foldl (array_add true) s

/-- The contents invariant maintained by successful appends: error Ok, the
first `size` buffer slots hold exactly `acc`, and the buffer fills its
(positive) capacity. -/
def Contents {α : Type} (s : ArrayC α) (acc : List α) : Prop :=
  s.error = .OK_ERROR ∧ s.size = acc.length ∧ 1 ≤ s.capacity ∧
  s.size ≤ s.capacity ∧ s.buf.length = s.capacity ∧
  s.buf.take s.size = acc

theorem capInv_shrink_arith {m c : Nat} (hne : c ≠ m)
    (hk : ∃ k, c = m * 2 ^ k) :
    (∃ j, c / 2 = m * 2 ^ j) ∧ m ≤ c / 2 := by
  obtain ⟨k, hk⟩ := hk
  have hk0 : k ≠ 0 := by
    rintro rfl
    simp only [pow_zero, mul_one] at hk
    exact hne hk
  obtain ⟨j, rfl⟩ : ∃ j, k = j + 1 := ⟨k - 1, by omega⟩
  have hcap2 : c / 2 = m * 2 ^ j := by
    rw [hk, pow_succ, ← mul_assoc, Nat.mul_div_cancel _ (by norm_num : 0 < 2)]
  refine ⟨⟨j, hcap2⟩, ?_⟩
  rw [hcap2]
  exact Nat.le_mul_of_pos_right _ (pow_pos (by norm_num) j)

theorem capInv_add {α : Type} [Inhabited α] (s : ArrayC α) (v : α)
    (h : CapInv s) : CapInv (array_add true s v) := by
  obtain ⟨h1, hsc, hmc, k, hk⟩ := h
  by_cases hok : s.error = .OK_ERROR
  · by_cases hfull : s.size = s.capacity
    · have heq : array_add true s v
          = { s with capacity := s.capacity * 2,
                     buf := (growBuf s.buf (s.capacity * 2)).set s.size v,
                     size := s.size + 1 } := by
        simp [array_add, hok, hfull]
      rw [heq]
      refine ⟨h1, ?_, ?_, k + 1, ?_⟩
      · show s.size + 1 ≤ s.capacity * 2
        omega
      · show s.min_capacity ≤ s.capacity * 2
        omega
      · show s.capacity * 2 = s.min_capacity * 2 ^ (k + 1)
        rw [hk, pow_succ]
        ring
    · have heq : array_add true s v
          = { s with buf := s.buf.set s.size v, size := s.size + 1 } := by
        simp [array_add, hok, hfull]
      rw [heq]
      refine ⟨h1, ?_, hmc, k, hk⟩
      show s.size + 1 ≤ s.capacity
      omega
  · have heq : array_add true s v = s := by simp [array_add, hok]
    rw [heq]
    exact ⟨h1, hsc, hmc, k, hk⟩

theorem capInv_insertNoGrow {α : Type} [Inhabited α] (s : ArrayC α)
    (i : Nat) (v : α) (h1 : 1 ≤ s.min_capacity) (hsc : s.size < s.capacity)
    (hmc : s.min_capacity ≤ s.capacity)
    (hk : ∃ k, s.capacity = s.min_capacity * 2 ^ k) :
    CapInv (insertNoGrow s i v) := by
  obtain ⟨k, hk⟩ := hk
  by_cases hle : i ≤ s.size
  · have heq : insertNoGrow s i v
        = { s with size := s.size + 1,
                   buf := (shiftRight i s.size s.buf).set i v } := by
      simp [insertNoGrow, hle]
    rw [heq]
    refine ⟨h1, ?_, hmc, k, hk⟩
    show s.size + 1 ≤ s.capacity
    omega
  · have heq : insertNoGrow s i v = { s with error := .OUT_OF_BOUNDS } := by
      simp [insertNoGrow, hle]
    rw [heq]
    refine ⟨h1, ?_, hmc, k, hk⟩
    show s.size ≤ s.capacity
    omega

theorem capInv_addIndex {α : Type} [Inhabited α] (s : ArrayC α) (i : Nat)
    (v : α) (h : CapInv s) : CapInv (array_add_index true s i v) := by
  obtain ⟨h1, hsc, hmc, k, hk⟩ := h
  by_cases hok : s.error = .OK_ERROR
  · by_cases hfull : s.size = s.capacity
    · have heq : array_add_index true s i v
          = insertNoGrow
              { s with capacity := s.capacity * 2,
                       buf := growBuf s.buf (s.capacity * 2) } i v := by
        simp [array_add_index, hok, hfull]
      rw [heq]
      refine capInv_insertNoGrow _ i v h1 ?_ ?_ ⟨k + 1, ?_⟩
      · show s.size < s.capacity * 2
        omega
      · show s.min_capacity ≤ s.capacity * 2
        omega
      · show s.capacity * 2 = s.min_capacity * 2 ^ (k + 1)
        rw [hk, pow_succ]
        ring
    · have heq : array_add_index true s i v = insertNoGrow s i v := by
        simp [array_add_index, hok, hfull]
      rw [heq]
      exact capInv_insertNoGrow s i v h1 (by omega) hmc ⟨k, hk⟩
  · have heq : array_add_index true s i v = s := by simp [array_add_index, hok]
    rw [heq]
    exact ⟨h1, hsc, hmc, k, hk⟩

theorem capInv_set {α : Type} (s : ArrayC α) (i : Nat) (v : α)
    (h : CapInv s) : CapInv (array_set s i v) := by
  obtain ⟨h1, hsc, hmc, k, hk⟩ := h
  by_cases hok : s.error = .OK_ERROR
  · by_cases hi : i < s.size
    · have heq : array_set s i v = { s with buf := s.buf.set i v } := by
        simp [array_set, hok, hi]
      rw [heq]
      exact ⟨h1, hsc, hmc, k, hk⟩
    · have heq : array_set s i v = { s with error := .OUT_OF_BOUNDS } := by
        simp [array_set, hok, hi]
      rw [heq]
      exact ⟨h1, hsc, hmc, k, hk⟩
  · have heq : array_set s i v = s := by simp [array_set, hok]
    rw [heq]
    exact ⟨h1, hsc, hmc, k, hk⟩

theorem capInv_get {α : Type} [Inhabited α] (s : ArrayC α) (i : Nat) (r : α)
    (h : CapInv s) : CapInv (array_get s i r).1 := by
  obtain ⟨h1, hsc, hmc, k, hk⟩ := h
  by_cases hok : s.error = .OK_ERROR
  · by_cases hi : i < s.size
    · have heq : (array_get s i r).1 = s := by simp [array_get, hok, hi]
      rw [heq]
      exact ⟨h1, hsc, hmc, k, hk⟩
    · have heq : (array_get s i r).1 = { s with error := .OUT_OF_BOUNDS } := by
        simp [array_get, hok, hi]
      rw [heq]
      exact ⟨h1, hsc, hmc, k, hk⟩
  · have heq : (array_get s i r).1 = s := by simp [array_get, hok]
    rw [heq]
    exact ⟨h1, hsc, hmc, k, hk⟩

theorem capInv_remove {α : Type} (s : ArrayC α) (h : CapInv s) :
    CapInv (array_remove true s) := by
  obtain ⟨h1, hsc, hmc, k, hk⟩ := h
  by_cases hok : s.error = .OK_ERROR
  · by_cases hp : s.size > 0
    · by_cases hc : s.size - 1 = s.capacity / 2 ∧
          s.capacity ≠ s.min_capacity
      · have heq : array_remove true s
            = { s with size := s.size - 1, capacity := s.capacity / 2,
                       buf := s.buf.take (s.capacity / 2) } := by
          simp [array_remove, hok, hp, hc]
        rw [heq]
        obtain ⟨hhalf, hne⟩ := hc
        obtain ⟨⟨j, hj⟩, hm2⟩ := capInv_shrink_arith hne ⟨k, hk⟩
        refine ⟨h1, ?_, hm2, j, hj⟩
        show s.size - 1 ≤ s.capacity / 2
        omega
      · have heq : array_remove true s = { s with size := s.size - 1 } := by
          simp [array_remove, hok, hp, hc]
        rw [heq]
        refine ⟨h1, ?_, hmc, k, hk⟩
        show s.size - 1 ≤ s.capacity
        omega
    · have heq : array_remove true s = { s with error := .OUT_OF_BOUNDS } := by
        simp [array_remove, hok, hp]
      rw [heq]
      exact ⟨h1, hsc, hmc, k, hk⟩
  · have heq : array_remove true s = s := by simp [array_remove, hok]
    rw [heq]
    exact ⟨h1, hsc, hmc, k, hk⟩

theorem capInv_removeIndex {α : Type} [Inhabited α] (s : ArrayC α)
    (i : Nat) (h : CapInv s) : CapInv (array_remove_index true s i) := by
  obtain ⟨h1, hsc, hmc, k, hk⟩ := h
  by_cases hok : s.error = .OK_ERROR
  · by_cases hp : s.size > 0 ∧ i < s.size
    · by_cases hc : s.size - 1 = s.capacity / 2 ∧
          s.capacity ≠ s.min_capacity
      · have heq : array_remove_index true s i
            = { s with
                buf := (shiftLeft (s.size - 1) i s.buf).take (s.capacity / 2),
                size := s.size - 1, capacity := s.capacity / 2 } := by
          simp [array_remove_index, hok, hp, hc]
        rw [heq]
        obtain ⟨hhalf, hne⟩ := hc
        obtain ⟨⟨j, hj⟩, hm2⟩ := capInv_shrink_arith hne ⟨k, hk⟩
        refine ⟨h1, ?_, hm2, j, hj⟩
        show s.size - 1 ≤ s.capacity / 2
        omega
      · have heq : array_remove_index true s i
            = { s with buf := shiftLeft (s.size - 1) i s.buf,
                       size := s.size - 1 } := by
          simp [array_remove_index, hok, hp, hc]
        rw [heq]
        refine ⟨h1, ?_, hmc, k, hk⟩
        show s.size - 1 ≤ s.capacity
        omega
    · have heq : array_remove_index true s i
          = { s with error := .OUT_OF_BOUNDS } := by
        simp [array_remove_index, hok, hp]
      rw [heq]
      exact ⟨h1, hsc, hmc, k, hk⟩
  · have heq : array_remove_index true s i = s := by
      simp [array_remove_index, hok]
    rw [heq]
    exact ⟨h1, hsc, hmc, k, hk⟩

theorem capInv_applyOp {α : Type} [Inhabited α] (s : ArrayC α) (op : ArrOp α)
    (h : CapInv s) : CapInv (applyOp s op) := by
  cases op with
  | add v => exact capInv_add s v h
  | addIndex i v => exact capInv_addIndex s i v h
  | set i v => exact capInv_set s i v h
  | get i => exact capInv_get s i default h
  | removeLast => exact capInv_remove s h
  | removeIndex i => exact capInv_removeIndex s i h

theorem capInv_runOps {α : Type} [Inhabited α] (ops : List (ArrOp α))
    (s : ArrayC α) (h : CapInv s) : CapInv (runOps s ops) := by
  induction ops generalizing s with
  | nil => simpa [runOps] using h
  | cons op ops ih =>
      simpa [runOps, List.foldl_cons] using
        ih (applyOp s op) (capInv_applyOp s op h)

/-- Claim C3: from a successful `array_init` with `init_capacity ≥ 1`,
after any sequence of operations in which every (re)allocation succeeds,
`capacity ≥ max(size, min_capacity)` and `capacity` is
`min_capacity * 2 ^ k` for some `k ≥ 0`. -/
theorem C3_capacity_invariant {α : Type} [Inhabited α] (c : Nat)
    (hc : 1 ≤ c) (s : ArrayC α) (ops : List (ArrOp α)) :
    max (runOps (array_init c true s) ops).size
        (runOps (array_init c true s) ops).min_capacity
      ≤ (runOps (array_init c true s) ops).capacity ∧
    ∃ k, (runOps (array_init c true s) ops).capacity
      = (runOps (array_init c true s) ops).min_capacity * 2 ^ k := by
  have h0 : CapInv (array_init c true s) := by
    refine ⟨?_, ?_, ?_, 0, ?_⟩ <;> simp [array_init]
    exact hc
  obtain ⟨h1, hsc, hmc, k, hk⟩ := capInv_runOps ops _ h0
  exact ⟨max_le hsc hmc, k, hk⟩

/-- Witness for `C3_capacity_invariant` on a small concrete run. -/
theorem C3_capacity_invariant_witness :
    1 ≤ 1 ∧
    (max (runOps (array_init 1 true
            ({ buf := [], capacity := 0, size := 0, min_capacity := 0,
               error := .OK_ERROR } : ArrayC Nat))
          [ArrOp.add 5, ArrOp.add 6, ArrOp.removeLast]).size
         (runOps (array_init 1 true
            ({ buf := [], capacity := 0, size := 0, min_capacity := 0,
               error := .OK_ERROR } : ArrayC Nat))
          [ArrOp.add 5, ArrOp.add 6, ArrOp.removeLast]).min_capacity
       ≤ (runOps (array_init 1 true
            ({ buf := [], capacity := 0, size := 0, min_capacity := 0,
               error := .OK_ERROR } : ArrayC Nat))
          [ArrOp.add 5, ArrOp.add 6, ArrOp.removeLast]).capacity ∧
     ∃ k, (runOps (array_init 1 true
            ({ buf := [], capacity := 0, size := 0, min_capacity := 0,
               error := .OK_ERROR } : ArrayC Nat))
          [ArrOp.add 5, ArrOp.add 6, ArrOp.removeLast]).capacity
       = (runOps (array_init 1 true
            ({ buf := [], capacity := 0, size := 0, min_capacity := 0,
               error := .OK_ERROR } : ArrayC Nat))
          [ArrOp.add 5, ArrOp.add 6, ArrOp.removeLast]).min_capacity
           * 2 ^ k) :=
  ⟨le_refl 1, C3_capacity_invariant 1 (le_refl 1) _ _⟩

theorem take_of_set_at {α : Type} (l : List α) (n : Nat) (v : α)
    (h : n < l.length) : (l.set n v).take (n + 1) = l.take n ++ [v] := by
  rw [List.take_succ]
  have h2 : List.take n (l.set n v) = List.take n l := by
    apply List.ext_getElem?
    intro i
    rw [List.getElem?_take, List.getElem?_take]
    by_cases hi : i < n
    · simp [hi, List.getElem?_set_ne (by omega : n ≠ i)]
    · simp [hi]
  simp [List.getElem?_set, h, h2]

theorem contents_add {α : Type} [Inhabited α] (s : ArrayC α) (acc : List α)
    (v : α) (h : Contents s acc) :
    Contents (array_add true s v) (acc ++ [v]) := by
  obtain ⟨hok, hsz, hc1, hsc, hbl, hbt⟩ := h
  by_cases hfull : s.size = s.capacity
  · have heq : array_add true s v
        = { s with capacity := s.capacity * 2,
                   buf := (growBuf s.buf (s.capacity * 2)).set s.size v,
                   size := s.size + 1 } := by
      simp [array_add, hok, hfull]
    rw [heq]
    have hgl : (growBuf s.buf (s.capacity * 2)).length = s.capacity * 2 := by
      simp [growBuf]
      omega
    refine ⟨hok, ?_, ?_, ?_, ?_, ?_⟩
    · show s.size + 1 = (acc ++ [v]).length
      simp [hsz]
    · show 1 ≤ s.capacity * 2
      omega
    · show s.size + 1 ≤ s.capacity * 2
      omega
    · show ((growBuf s.buf (s.capacity * 2)).set s.size v).length
        = s.capacity * 2
      rw [List.length_set, hgl]
    · show ((growBuf s.buf (s.capacity * 2)).set s.size v).take (s.size + 1)
        = acc ++ [v]
      rw [take_of_set_at _ _ _ (by omega : s.size < (growBuf s.buf (s.capacity * 2)).length)]
      rw [growBuf, List.take_append_of_le_length (by omega : s.size ≤ s.buf.length)]
      rw [hbt]
  · have heq : array_add true s v
        = { s with buf := s.buf.set s.size v, size := s.size + 1 } := by
      simp [array_add, hok, hfull]
    rw [heq]
    refine ⟨hok, ?_, hc1, ?_, ?_, ?_⟩
    · show s.size + 1 = (acc ++ [v]).length
      simp [hsz]
    · show s.size + 1 ≤ s.capacity
      omega
    · show (s.buf.set s.size v).length = s.capacity
      rw [List.length_set, hbl]
    · show (s.buf.set s.size v).take (s.size + 1) = acc ++ [v]
      rw [take_of_set_at _ _ _ (by omega : s.size < s.buf.length), hbt]

theorem contents_appendAll {α : Type} [Inhabited α] (vs : List α)
    (s : ArrayC α) (acc : List α) (h : Contents s acc) :
    Contents (appendAll s vs) (acc ++ vs) := by
  induction vs generalizing s acc with
  | nil => simpa [appendAll] using h
  | cons v vs ih =>
      have h1 := contents_add s acc v h
      have h2 := ih (array_add true s v) (acc ++ [v]) h1
      simpa [appendAll, List.foldl_cons] using h2

/-- Claim C4: appending `N = vs.length` values to a freshly and
successfully initialized array (capacity ≥ 1, all reallocations
succeeding) yields `array_size = N`, error Ok, and `array_get` at each
`i < N` returns the i-th appended value. -/
theorem C4_append_get_roundtrip {α : Type} [Inhabited α] (c : Nat)
    (hc : 1 ≤ c) (s : ArrayC α) (vs : List α) (junk : α) :
    array_size (appendAll (array_init c true s) vs) = vs.length ∧
    array_error_state (appendAll (array_init c true s) vs)
      = .OK_ERROR ∧
    ∀ i, (h : i < vs.length) →
      (array_get (appendAll (array_init c true s) vs) i junk).2 = vs[i] := by
  have h0 : Contents (array_init c true s) [] := by
    refine ⟨?_, ?_, ?_, ?_, ?_, ?_⟩ <;> simp [array_init]
    exact hc
  have h := contents_appendAll vs (array_init c true s) [] h0
  rw [List.nil_append] at h
  obtain ⟨hok, hsz, hc1, hsc, hbl, hbt⟩ := h
  refine ⟨hsz, hok, ?_⟩
  intro i hi
  have hit : i < (appendAll (array_init c true s) vs).size := by omega
  have hv : (array_get (appendAll (array_init c true s) vs) i junk).2
      = (appendAll (array_init c true s) vs).buf.getD i default := by
    simp [array_get, hok, hit]
  rw [hv, List.getD_eq_getElem?_getD]
  have h1 : (appendAll (array_init c true s) vs).buf[i]? = vs[i]? := by
    have h2 := List.getElem?_take
      (l := (appendAll (array_init c true s) vs).buf)
      (n := (appendAll (array_init c true s) vs).size) (m := i)
    rw [hbt] at h2
    simp only [hit, if_true] at h2
    exact h2.symm
  rw [h1, List.getElem?_eq_getElem hi]
  rfl

/-- Witness for `C4_append_get_roundtrip` on a concrete append sequence. -/
theorem C4_append_get_roundtrip_witness :
    1 ≤ 2 ∧
    (array_size (appendAll (array_init 2 true
        ({ buf := [], capacity := 0, size := 0, min_capacity := 0,
           error := .OK_ERROR } : ArrayC Nat)) [10, 20, 30]) = 3 ∧
     array_error_state (appendAll (array_init 2 true
        ({ buf := [], capacity := 0, size := 0, min_capacity := 0,
           error := .OK_ERROR } : ArrayC Nat)) [10, 20, 30])
       = .OK_ERROR ∧
     ∀ i, (h : i < 3) →
       (array_get (appendAll (array_init 2 true
          ({ buf := [], capacity := 0, size := 0, min_capacity := 0,
             error := .OK_ERROR } : ArrayC Nat)) [10, 20, 30]) i 0).2
         = [10, 20, 30][i]) :=
  ⟨by decide,
   C4_append_get_roundtrip 2 (by decide) _ [10, 20, 30] 0⟩

/-- Claim C1, counterexample to the statement as given: on a full array
(`size = capacity = 1`) whose growth reallocation fails, `array_add` sets
`error = OUT_OF_MEM` but leaves `capacity` doubled (2, not the old 1). -/
theorem C1_counterexample :
    (array_add false
        { buf := [5], capacity := 1, size := 1, min_capacity := 1,
          error := .OK_ERROR } (9 : Nat)).error = .OUT_OF_MEM ∧
    (array_add false
        { buf := [5], capacity := 1, size := 1, min_capacity := 1,
          error := .OK_ERROR } (9 : Nat)).capacity ≠ 1 := by
  decide

/-- Claim C1, amended: when `Append`'s growth reallocation fails on a full
Ok-state array, the result has `error = OUT_OF_MEM`, the buffer, size and
minimum capacity unchanged, and `capacity` doubled (the source doubles it
before the `realloc` and does not restore it). -/
theorem C1_append_growth_failure {α : Type} [Inhabited α] (s : ArrayC α)
    (v : α) (hok : s.error = .OK_ERROR) (hfull : s.size = s.capacity) :
    array_add false s v
      = { s with capacity := s.capacity * 2, error := .OUT_OF_MEM } := by
  simp [array_add, hok, hfull]

/-- Witness for `C1_append_growth_failure` at a concrete full array. -/
theorem C1_append_growth_failure_witness :
    (({ buf := [5], capacity := 1, size := 1, min_capacity := 1,
        error := .OK_ERROR } : ArrayC Nat).error = array_error.OK_ERROR ∧
      ({ buf := [5], capacity := 1, size := 1, min_capacity := 1,
         error := .OK_ERROR } : ArrayC Nat).size
        = ({ buf := [5], capacity := 1, size := 1, min_capacity := 1,
             error := .OK_ERROR } : ArrayC Nat).capacity) ∧
    array_add false
        ({ buf := [5], capacity := 1, size := 1, min_capacity := 1,
           error := .OK_ERROR } : ArrayC Nat) 9
      = { buf := [5], capacity := 2, size := 1, min_capacity := 1,
          error := .OUT_OF_MEM } :=
  ⟨⟨rfl, rfl⟩, C1_append_growth_failure _ 9 rfl rfl⟩

/-- Claim C10, counterexample to the statement as given: a failed
`array_init` does not write only `error` — it also writes `buf` (with the
null pointer `calloc` returned, modelled as `[]`), so a pre-existing `buf`
value is overwritten. -/
theorem C10_counterexample :
    (array_init 10 false
        { buf := [3], capacity := 7, size := 5, min_capacity := 4,
          error := (.OK_ERROR : array_error) }).error = .OUT_OF_MEM ∧
    (array_init 10 false
        { buf := [3], capacity := 7, size := 5, min_capacity := 4,
          error := (.OK_ERROR : array_error) }).buf ≠ [3] := by
  decide

/-- Claim C10, amended: a failed `array_init` writes exactly `buf` (to the
null result of `calloc`) and `error` (to `OUT_OF_MEM`); `size`, `capacity`
and `min_capacity` are not written, so they keep whatever (indeterminate)
values the struct held before the call. -/
theorem C10_init_failure_frame {α : Type} [Inhabited α] (c : Nat)
    (s : ArrayC α) :
    array_init c false s = { s with buf := [], error := .OUT_OF_MEM } := by
  simp [array_init]

/-- Claim C5: with a non-Ok error flag every mutating operation is a
no-op returning the state unchanged (`array_get` also leaves the output
variable unchanged), while `array_size` and the error accessor still read
the stored fields; in particular no operation resets the error to Ok. -/
theorem C5_sticky_error {α : Type} [Inhabited α] (s : ArrayC α) (ao : Bool)
    (i : Nat) (v r : α) (h : s.error ≠ .OK_ERROR) :
    array_add ao s v = s ∧
    array_add_index ao s i v = s ∧
    array_set s i v = s ∧
    array_get s i r = (s, r) ∧
    array_remove ao s = s ∧
    array_remove_index ao s i = s ∧
    array_size s = s.size ∧
    array_error_state s = s.error := by
  simp [array_add, array_add_index, array_set, array_get, array_remove,
        array_remove_index, array_size, array_error_state, h]

/-- Witness for `C5_sticky_error` at a concrete errored state. -/
theorem C5_sticky_error_witness :
    (({ buf := [4, 4], capacity := 2, size := 2, min_capacity := 2,
        error := .OUT_OF_BOUNDS } : ArrayC Nat).error ≠ .OK_ERROR) ∧
    array_add true
        ({ buf := [4, 4], capacity := 2, size := 2, min_capacity := 2,
           error := .OUT_OF_BOUNDS } : ArrayC Nat) 7
      = { buf := [4, 4], capacity := 2, size := 2, min_capacity := 2,
          error := .OUT_OF_BOUNDS } :=
  ⟨by decide,
   (C5_sticky_error
      ({ buf := [4, 4], capacity := 2, size := 2, min_capacity := 2,
         error := .OUT_OF_BOUNDS } : ArrayC Nat) true 0 7 0 (by decide)).1⟩

/-- Claim C6: initializing with capacity 1 and appending 5 values yields
size 5, error Ok, and the capacity trajectory 1, 2, 4, 4, 8 — the doubling
1 → 2 → 4 → 8 fires exactly at the appends that start with
`size = capacity` (the 2nd, 3rd and 5th), never `OUT_OF_MEM`. -/
theorem C6_growth_trajectory {α : Type} [Inhabited α] (s : ArrayC α)
    (v1 v2 v3 v4 v5 : α) :
    let s0 := array_init 1 true s
    let s1 := array_add true s0 v1
    let s2 := array_add true s1 v2
    let s3 := array_add true s2 v3
    let s4 := array_add true s3 v4
    let s5 := array_add true s4 v5
    s0.capacity = 1 ∧ s0.size = 0 ∧
    s1.capacity = 1 ∧ s1.size = 1 ∧
    s2.capacity = 2 ∧ s2.size = 2 ∧
    s3.capacity = 4 ∧ s3.size = 3 ∧
    s4.capacity = 4 ∧ s4.size = 4 ∧
    s5.capacity = 8 ∧ s5.size = 5 ∧ s5.error = .OK_ERROR := by
  simp [array_init, array_add, growBuf]

/-- Claim C8: inserting at index `size` is exactly appending — for every
state, value and allocation outcome, `array_add_index` at `s.size`
returns the same state (buffer, size, capacity, error) as `array_add`,
growth-failure paths included. -/
theorem C8_insert_at_size_is_append {α : Type} [Inhabited α] (ao : Bool)
    (s : ArrayC α) (v : α) :
    array_add_index ao s s.size v = array_add ao s v := by
  by_cases hok : s.error = .OK_ERROR
  · by_cases hfull : s.size = s.capacity
    · cases ao <;>
        simp [array_add_index, array_add, insertNoGrow, shiftRight,
              shiftRightLoop, hok, hfull]
    · simp [array_add_index, array_add, insertNoGrow, shiftRight,
            shiftRightLoop, hok, hfull]
  · simp [array_add_index, array_add, hok]

/-- Claim C9: when a remove triggers the shrink (decremented size equals
`capacity / 2` and `capacity ≠ min_capacity`) and the shrink reallocation
fails, the result has `error = OUT_OF_MEM` and the already-decremented
size — the decrement is not rolled back — both for `array_remove` and for
`array_remove_index` at any in-range index. -/
theorem C9_shrink_failure_keeps_decrement {α : Type} [Inhabited α]
    (s : ArrayC α) (i : Nat) (hok : s.error = .OK_ERROR)
    (hpos : 0 < s.size) (hhalf : s.size - 1 = s.capacity / 2)
    (hmin : s.capacity ≠ s.min_capacity) :
    (array_remove false s).error = .OUT_OF_MEM ∧
    (array_remove false s).size = s.size - 1 ∧
    (i < s.size →
      (array_remove_index false s i).error = .OUT_OF_MEM ∧
      (array_remove_index false s i).size = s.size - 1) := by
  refine ⟨?_, ?_, fun hi => ?_⟩
  · simp [array_remove, hok, hpos, hhalf, hmin]
  · simp [array_remove, hok, hpos, hhalf, hmin]
  · constructor <;>
      simp [array_remove_index, hok, hpos, hhalf, hmin, hi]

/-- Witness for `C9_shrink_failure_keeps_decrement`: capacity 4, size 3,
min capacity 1; removing brings size to 2 = 4 / 2 and the failing shrink
leaves size 2 and `OUT_OF_MEM`. -/
theorem C9_shrink_failure_keeps_decrement_witness :
    (({ buf := [1, 2, 3, 0], capacity := 4, size := 3, min_capacity := 1,
        error := .OK_ERROR } : ArrayC Nat).error = array_error.OK_ERROR ∧
      0 < (3 : Nat) ∧ (3 : Nat) - 1 = 4 / 2 ∧ (4 : Nat) ≠ 1) ∧
    ((array_remove false
        ({ buf := [1, 2, 3, 0], capacity := 4, size := 3, min_capacity := 1,
           error := .OK_ERROR } : ArrayC Nat)).error = .OUT_OF_MEM ∧
     (array_remove false
        ({ buf := [1, 2, 3, 0], capacity := 4, size := 3, min_capacity := 1,
           error := .OK_ERROR } : ArrayC Nat)).size = 3 - 1 ∧
     ((0 : Nat) < 3 →
       (array_remove_index false
          ({ buf := [1, 2, 3, 0], capacity := 4, size := 3, min_capacity := 1,
             error := .OK_ERROR } : ArrayC Nat) 0).error = .OUT_OF_MEM ∧
       (array_remove_index false
          ({ buf := [1, 2, 3, 0], capacity := 4, size := 3, min_capacity := 1,
             error := .OK_ERROR } : ArrayC Nat) 0).size = 3 - 1)) :=
  ⟨⟨rfl, by decide, by decide, by decide⟩,
   C9_shrink_failure_keeps_decrement _ 0 rfl (by decide) (by decide)
     (by decide)⟩

/-- Claim C2, counterexample to the statement as given: `array_add_index`
on a full array (`size = capacity = 1`) with index 2 > size sets
`error = OUT_OF_BOUNDS`, yet mutates the array — the growth ran before
the bounds check, so `capacity` is 2, not the old 1. -/
theorem C2_counterexample :
    (array_add_index true
        { buf := [7], capacity := 1, size := 1, min_capacity := 1,
          error := .OK_ERROR } 2 (99 : Nat)).error = .OUT_OF_BOUNDS ∧
    (array_add_index true
        { buf := [7], capacity := 1, size := 1, min_capacity := 1,
          error := .OK_ERROR } 2 (99 : Nat)).capacity ≠ 1 := by
  decide

/-- Claim C2, amended: from an Ok state, an `OUT_OF_BOUNDS` outcome of
`array_set`, `array_get`, `array_remove` or `array_remove_index` changes
nothing but the error flag; for `array_add_index` it leaves size (and,
when no growth was needed, the whole array) unchanged, but when
`size = capacity` the successful growth has already happened at the
failed bounds check, so capacity is doubled and the buffer reallocated. -/
theorem C2_out_of_bounds_frame {α : Type} [Inhabited α] (s : ArrayC α)
    (ao : Bool) (i : Nat) (v r : α) (hok : s.error = .OK_ERROR) :
    ((array_set s i v).error = .OUT_OF_BOUNDS →
      array_set s i v = { s with error := .OUT_OF_BOUNDS }) ∧
    ((array_get s i r).1.error = .OUT_OF_BOUNDS →
      array_get s i r = ({ s with error := .OUT_OF_BOUNDS }, r)) ∧
    ((array_remove ao s).error = .OUT_OF_BOUNDS →
      array_remove ao s = { s with error := .OUT_OF_BOUNDS }) ∧
    ((array_remove_index ao s i).error = .OUT_OF_BOUNDS →
      array_remove_index ao s i = { s with error := .OUT_OF_BOUNDS }) ∧
    ((array_add_index ao s i v).error = .OUT_OF_BOUNDS →
      (array_add_index ao s i v).size = s.size ∧
      (s.size ≠ s.capacity →
        array_add_index ao s i v = { s with error := .OUT_OF_BOUNDS }) ∧
      (s.size = s.capacity →
        array_add_index ao s i v
          = { s with capacity := s.capacity * 2,
                     buf := growBuf s.buf (s.capacity * 2),
                     error := .OUT_OF_BOUNDS })) := by
  refine ⟨?_, ?_, ?_, ?_, ?_⟩
  · by_cases hi : i < s.size <;> simp [array_set, hok, hi]
  · by_cases hi : i < s.size <;> simp [array_get, hok, hi]
  · intro hres
    by_cases hp : s.size > 0
    · by_cases hc : s.size - 1 = s.capacity / 2 ∧ s.capacity ≠ s.min_capacity
      · cases ao <;> simp [array_remove, hok, hp, hc] at hres
      · simp [array_remove, hok, hp, hc] at hres
    · simp [array_remove, hok, hp]
  · intro hres
    by_cases hp : s.size > 0 ∧ i < s.size
    · by_cases hc : s.size - 1 = s.capacity / 2 ∧ s.capacity ≠ s.min_capacity
      · cases ao <;> simp [array_remove_index, hok, hp, hc] at hres
      · simp [array_remove_index, hok, hp, hc] at hres
    · simp [array_remove_index, hok, hp]
  · intro hres
    by_cases hfull : s.size = s.capacity
    · cases ao with
      | false => simp [array_add_index, hok, hfull] at hres
      | true =>
          by_cases hle : i ≤ s.size
          · rw [hfull] at hle
            simp [array_add_index, insertNoGrow, hok, hfull, hle] at hres
          · rw [hfull] at hle
            refine ⟨?_, fun hne => absurd hfull hne, fun _ => ?_⟩ <;>
              simp [array_add_index, insertNoGrow, hok, hfull, hle]
    · by_cases hle : i ≤ s.size
      · simp [array_add_index, insertNoGrow, hok, hfull, hle] at hres
      · refine ⟨?_, fun _ => ?_, fun heq => absurd heq hfull⟩ <;>
          simp [array_add_index, insertNoGrow, hok, hfull, hle]

/-- Witness for `C2_out_of_bounds_frame` at a concrete Ok state. -/
theorem C2_out_of_bounds_frame_witness :
    (({ buf := [7], capacity := 1, size := 1, min_capacity := 1,
        error := .OK_ERROR } : ArrayC Nat).error = array_error.OK_ERROR) ∧
    ((array_set
        ({ buf := [7], capacity := 1, size := 1, min_capacity := 1,
           error := .OK_ERROR } : ArrayC Nat) 2 99).error = .OUT_OF_BOUNDS →
      array_set
        ({ buf := [7], capacity := 1, size := 1, min_capacity := 1,
           error := .OK_ERROR } : ArrayC Nat) 2 99
        = { buf := [7], capacity := 1, size := 1, min_capacity := 1,
            error := .OUT_OF_BOUNDS }) :=
  ⟨rfl,
   (C2_out_of_bounds_frame
      ({ buf := [7], capacity := 1, size := 1, min_capacity := 1,
         error := .OK_ERROR } : ArrayC Nat) true 2 99 0 rfl).1⟩

/-- Claim C7: one `array_remove` step (reallocation succeeding) on an Ok,
non-empty array whose floor is 1 and whose capacity is a power of two
halves the capacity exactly when the decremented size equals
`capacity / 2` and `capacity ≠ min_capacity`, and otherwise keeps it;
the result never drops below the floor and satisfies the same
hypotheses again, so the characterization holds at every step of a
repeated removal run. -/
theorem C7_remove_last_shrink {α : Type} (s : ArrayC α)
    (hok : s.error = .OK_ERROR) (hmin : s.min_capacity = 1)
    (hpow : ∃ k, s.capacity = 2 ^ k) (hpos : 0 < s.size)
    (hsc : s.size ≤ s.capacity) :
    (array_remove true s).capacity
      = (if s.size - 1 = s.capacity / 2 ∧ s.capacity ≠ 1
         then s.capacity / 2 else s.capacity) ∧
    (array_remove true s).min_capacity ≤ (array_remove true s).capacity ∧
    (array_remove true s).min_capacity = 1 ∧
    (array_remove true s).error = .OK_ERROR ∧
    (array_remove true s).size = s.size - 1 ∧
    (∃ k, (array_remove true s).capacity = 2 ^ k) ∧
    (array_remove true s).size ≤ (array_remove true s).capacity := by
  obtain ⟨k, hk⟩ := hpow
  by_cases hc : s.size - 1 = s.capacity / 2 ∧ s.capacity ≠ s.min_capacity
  · have heq : array_remove true s
        = { s with size := s.size - 1, capacity := s.capacity / 2,
                   buf := s.buf.take (s.capacity / 2) } := by
      simp [array_remove, hok, hpos, hc]
    obtain ⟨hhalf, hne⟩ := hc
    rw [hmin] at hne
    have hk0 : k ≠ 0 := by
      rintro rfl
      simp only [pow_zero] at hk
      exact hne hk
    obtain ⟨j, rfl⟩ : ∃ j, k = j + 1 := ⟨k - 1, by omega⟩
    have hcap2 : s.capacity / 2 = 2 ^ j := by
      rw [hk, pow_succ, Nat.mul_div_cancel _ (by norm_num : 0 < 2)]
    rw [heq]
    refine ⟨?_, ?_, hmin, hok, rfl, ⟨j, hcap2⟩, ?_⟩
    · show s.capacity / 2
        = if s.size - 1 = s.capacity / 2 ∧ s.capacity ≠ 1
          then s.capacity / 2 else s.capacity
      rw [if_pos ⟨hhalf, hne⟩]
    · show s.min_capacity ≤ s.capacity / 2
      rw [hmin, hcap2]
      exact Nat.one_le_two_pow
    · show s.size - 1 ≤ s.capacity / 2
      omega
  · have heq : array_remove true s = { s with size := s.size - 1 } := by
      simp [array_remove, hok, hpos, hc]
    rw [heq]
    rw [hmin] at hc
    refine ⟨?_, ?_, hmin, hok, rfl, ⟨k, hk⟩, ?_⟩
    · show s.capacity
        = if s.size - 1 = s.capacity / 2 ∧ s.capacity ≠ 1
          then s.capacity / 2 else s.capacity
      rw [if_neg hc]
    · show s.min_capacity ≤ s.capacity
      rw [hmin, hk]
      exact Nat.one_le_two_pow
    · show s.size - 1 ≤ s.capacity
      omega

/-- Witness for `C7_remove_last_shrink`: capacity 4, size 3, floor 1 —
the removal brings size to 2 = 4 / 2, so capacity halves to 2. -/
theorem C7_remove_last_shrink_witness :
    (({ buf := [1, 2, 3, 0], capacity := 4, size := 3, min_capacity := 1,
        error := .OK_ERROR } : ArrayC Nat).error = array_error.OK_ERROR ∧
      ({ buf := [1, 2, 3, 0], capacity := 4, size := 3, min_capacity := 1,
         error := .OK_ERROR } : ArrayC Nat).min_capacity = 1 ∧
      (∃ k, ({ buf := [1, 2, 3, 0], capacity := 4, size := 3,
               min_capacity := 1,
               error := .OK_ERROR } : ArrayC Nat).capacity = 2 ^ k) ∧
      0 < ({ buf := [1, 2, 3, 0], capacity := 4, size := 3,
             min_capacity := 1,
             error := .OK_ERROR } : ArrayC Nat).size) ∧
    (array_remove true
        ({ buf := [1, 2, 3, 0], capacity := 4, size := 3, min_capacity := 1,
           error := .OK_ERROR } : ArrayC Nat)).capacity
      = (if (3 : Nat) - 1 = 4 / 2 ∧ (4 : Nat) ≠ 1 then 4 / 2 else 4) ∧
    (array_remove true
        ({ buf := [1, 2, 3, 0], capacity := 4, size := 3, min_capacity := 1,
           error := .OK_ERROR } : ArrayC Nat)).min_capacity
      ≤ (array_remove true
          ({ buf := [1, 2, 3, 0], capacity := 4, size := 3,
             min_capacity := 1,
             error := .OK_ERROR } : ArrayC Nat)).capacity :=
  ⟨⟨rfl, rfl, ⟨2, rfl⟩, by decide⟩,
   (C7_remove_last_shrink _ rfl rfl ⟨2, rfl⟩ (by decide) (by decide)).1,
   (C7_remove_last_shrink _ rfl rfl ⟨2, rfl⟩ (by decide) (by decide)).2.1⟩
